import Mathlib

/-!
Verification of the elk-logger repository (src/elk_logger/logger.py).

The development shallowly embeds the Python module:
  * `PyObj` models the Python values that flow through `truncate_large_data`,
    `get_extra_from_json` and the JSON serializer of `SafeLogstashFormatter`
    (dicts with string keys, lists, strings, ints, bools, `None`, and opaque
    objects carrying their type name and the result of `str(...)` if it
    succeeds);
  * `truncate_large_data` mirrors logger.py lines 123-130;
  * `json_dumps` / `json_dumps_indent2` mirror the two `json.dumps` call
    shapes used in the module (default separators with a `default=` fallback
    for `SafeLogstashFormatter._serialize`, and
    `ensure_ascii=False, indent=2` for `get_extra_from_json`);
  * `setup_logger` / `get_logger` mirror lines 55-120 as explicit state
    passing over the module-level `_loggers` registry;
  * a store-based variant `truncStore` embeds `truncate_large_data` at the
    heap level to settle the frame property (the argument is never mutated);
  * a small-step interleaving system `Step` models N threads racing through
    the `with _lock:` critical section of `setup_logger`.
-/

/-! ## Python values -/

mutual

inductive PyObj where
| dict : PyKVs → PyObj
| list : PyList → PyObj
| str : String → PyObj
| int : Int → PyObj
| bool : Bool → PyObj
| none : PyObj
| obj : String → Option String → PyObj
deriving DecidableEq

inductive PyList where
| nil : PyList
| cons : PyObj → PyList → PyList
deriving DecidableEq

inductive PyKVs where
| nil : PyKVs
| cons : String → PyObj → PyKVs → PyKVs
deriving DecidableEq

end

/-- Keys of a Python dict, in insertion order. -/
def kvKeys : PyKVs → List String
| .nil => []
| .cons k _ rest => k :: kvKeys rest

/-- Length of a Python list. -/
def pyLen : PyList → Nat
| .nil => 0
| .cons _ rest => pyLen rest + 1

/-! ## truncate_large_data (logger.py lines 123-130) -/

/-- The placeholder produced for an oversized string:
`f"<truncated: {len(obj)} chars>"`. -/
def truncPlaceholder (n : Nat) : String :=
  "<truncated: " ++ toString n ++ " chars>"

mutual

/-- Embedding of `truncate_large_data(obj, max_len=100)`: dicts are rebuilt
with each value truncated, lists are rebuilt element-wise, strings longer
than `max_len` become the placeholder, and everything else is returned
unchanged. -/
def truncate_large_data : PyObj → Nat → PyObj
| .dict kvs, m => .dict (truncKVs kvs m)
| .list xs, m => .list (truncList xs m)
| .str s, m => if m < s.length then .str (truncPlaceholder s.length) else .str s
| .int i, _ => .int i
| .bool b, _ => .bool b
| .none, _ => .none
| .obj t r, _ => .obj t r

/-- Embedding of `[truncate_large_data(item, max_len) for item in obj]`. -/
def truncList : PyList → Nat → PyList
| .nil, _ => .nil
| .cons x rest, m => .cons (truncate_large_data x m) (truncList rest m)

/-- Embedding of `{k: truncate_large_data(v, max_len) for k, v in obj.items()}`. -/
def truncKVs : PyKVs → Nat → PyKVs
| .nil, _ => .nil
| .cons k v rest, m => .cons k (truncate_large_data v m) (truncKVs rest m)

end

/-- A string of `n` copies of `'a'`, used for the concrete scenarios. -/
def aString (n : Nat) : String := String.mk (List.replicate n 'a')

/-! ## JSON serialization (json.dumps as used in logger.py) -/

/-- Lower-case hexadecimal digit. -/
def hexDigit (n : Nat) : Char :=
  if n < 10 then Char.ofNat (48 + n) else Char.ofNat (87 + n)

/-- Four lower-case hex digits, as in Python's `\uXXXX` escapes. -/
def hex4 (n : Nat) : String :=
  String.mk [hexDigit (n / 4096 % 16), hexDigit (n / 256 % 16),
             hexDigit (n / 16 % 16), hexDigit (n % 16)]

/-- How `json.dumps` renders one character of a string: `"` and `\` are
escaped, control characters use the short escapes or `\uXXXX`, and with
`ensure_ascii` every character outside the printable ASCII range is escaped
(surrogate pairs above the BMP). -/
def escapeChar (ensure_ascii : Bool) (c : Char) : String :=
  if c = '"' then "\\\""
  else if c = '\\' then "\\\\"
  else if c = '\n' then "\\n"
  else if c = '\t' then "\\t"
  else if c = '\r' then "\\r"
  else if c.toNat = 8 then "\\b"
  else if c.toNat = 12 then "\\f"
  else if c.toNat < 32 then "\\u" ++ hex4 c.toNat
  else if ensure_ascii && decide (126 < c.toNat) then
    if c.toNat < 65536 then "\\u" ++ hex4 c.toNat
    else
      let v := c.toNat - 65536
      "\\u" ++ hex4 (55296 + v / 1024) ++ "\\u" ++ hex4 (56320 + v % 1024)
  else String.singleton c

/-- A JSON string literal for `s`. -/
def encodeString (ensure_ascii : Bool) (s : String) : String :=
  "\"" ++ String.join (s.data.map (escapeChar ensure_ascii)) ++ "\""

/-- Embedding of `SafeLogstashFormatter._json_default` (logger.py lines 19-23): the
`str(obj)` conversion when it succeeds, otherwise the
`<non-serializable: TypeName>` placeholder.  An opaque object is modelled by
its type name together with `some` conversion result or `Option.none` when
`str(obj)` raises. -/
def json_default (typeName : String) (strRes : Option String) : String :=
  match strRes with
  | some s => s
  | Option.none => "<non-serializable: " ++ typeName ++ ">"

mutual

/-- Embedding of `json.dumps(value, ensure_ascii=..., default=_json_default)` with the
default separators `(", ", ": ")`: native JSON values are rendered
structurally and an opaque object is replaced by the string
`_json_default` returns for it (which `json.dumps` then encodes as a JSON
string). -/
def json_dumps (ea : Bool) : PyObj → String
| .dict kvs => "\x7b" ++ dumpsKVs ea kvs ++ "\x7d"
| .list xs => "[" ++ dumpsList ea xs ++ "]"
| .str s => encodeString ea s
| .int i => toString i
| .bool b => if b then "true" else "false"
| .none => "null"
| .obj t r => encodeString ea (json_default t r)

/-- List items joined by `", "`. -/
def dumpsList (ea : Bool) : PyList → String
| .nil => ""
| .cons x .nil => json_dumps ea x
| .cons x (.cons y rest) => json_dumps ea x ++ ", " ++ dumpsList ea (.cons y rest)

/-- Dict entries `"key": value` joined by `", "`. -/
def dumpsKVs (ea : Bool) : PyKVs → String
| .nil => ""
| .cons k v .nil => encodeString ea k ++ ": " ++ json_dumps ea v
| .cons k v (.cons k2 v2 rest) =>
    encodeString ea k ++ ": " ++ json_dumps ea v ++ ", "
      ++ dumpsKVs ea (.cons k2 v2 rest)

end

/-- Embedding of `SafeLogstashFormatter._serialize(message)` (logger.py lines 16-17):
`json.dumps(message, ensure_ascii=self._ensure_ascii, default=self._json_default)`
applied to the message dict.  It is a total function: serialization never
raises to the caller. -/
def SafeLogstashFormatter_serialize (ensure_ascii : Bool) (message : PyKVs) : String :=
  json_dumps ensure_ascii (.dict message)

/-- A run of `n` spaces. -/
def spaces (n : Nat) : String := String.mk (List.replicate n ' ')

mutual

/-- Embedding of `json.dumps(value, ensure_ascii=False, indent=2)` at current
indentation `ind`: containers open on their own line, members are indented
two further spaces and separated by `","` + newline, the closing bracket
returns to the enclosing indentation; empty containers print inline. -/
def json_dumps_indent2 (ind : Nat) : PyObj → String
| .dict .nil => "\x7b\x7d"
| .dict (.cons k v rest) =>
    "\x7b\n" ++ dumps2KVs (ind + 2) (.cons k v rest) ++ "\n" ++ spaces ind ++ "\x7d"
| .list .nil => "[]"
| .list (.cons x rest) =>
    "[\n" ++ dumps2List (ind + 2) (.cons x rest) ++ "\n" ++ spaces ind ++ "]"
| .str s => encodeString false s
| .int i => toString i
| .bool b => if b then "true" else "false"
| .none => "null"
| .obj t r => encodeString false (json_default t r)

/-- Indented list items joined by `",\n"`. -/
def dumps2List (ind : Nat) : PyList → String
| .nil => ""
| .cons x .nil => spaces ind ++ json_dumps_indent2 ind x
| .cons x (.cons y rest) =>
    spaces ind ++ json_dumps_indent2 ind x ++ ",\n" ++ dumps2List ind (.cons y rest)

/-- Indented dict entries joined by `",\n"`. -/
def dumps2KVs (ind : Nat) : PyKVs → String
| .nil => ""
| .cons k v .nil => spaces ind ++ encodeString false k ++ ": " ++ json_dumps_indent2 ind v
| .cons k v (.cons k2 v2 rest) =>
    spaces ind ++ encodeString false k ++ ": " ++ json_dumps_indent2 ind v ++ ",\n"
      ++ dumps2KVs ind (.cons k2 v2 rest)

end

/-- Embedding of `get_extra_from_json(data, max_len=100)` (logger.py lines 133-136):
a single-entry dict binding `"raw_json"` to
`json.dumps(truncate_large_data(data, max_len), ensure_ascii=False, indent=2)`. -/
def get_extra_from_json (data : PyKVs) (max_len : Nat) : List (String × String) :=
  [("raw_json", json_dumps_indent2 0 (truncate_large_data (.dict data) max_len))]

/-! ## setup_logger / get_logger (logger.py lines 11-12, 26-52, 55-120) -/

/-- The value of `logging.INFO`. -/
def INFO : Nat := 20

/-- The configuration `SafeLogstashFormatter(message_type=..., extra_prefix=...,
extra={"environment": ...})` receives when it is attached (lines 101-108). -/
structure LogstashFormatterCfg where
  message_type : String
  extraPrefix : String
  extra_environment : String
deriving DecidableEq

/-- A handler attached to a logger: either the console `StreamHandler` with
its `ConsoleFormatterWithExtra` (lines 80-93) or the
`AsynchronousLogstashHandler` with its optional custom formatter
(lines 95-110). -/
inductive Handler where
| console (level : Nat) (fmt : String) (datefmt : String) (allowed_fields : List String)
| logstash (host : String) (port : Nat) (level : Nat)
    (formatter : Option LogstashFormatterCfg)
deriving DecidableEq

/-- Is this handler the aggregation (logstash) sink? -/
def Handler.isLogstash : Handler → Bool
| .logstash _ _ _ _ => true
| _ => false

/-- The observable state of a configured logger handle: its name, minimum
level, propagation flag, the environment labels of its attached
`EnvironmentFilter`s, and its ordered handler list. -/
structure Logger where
  name : String
  level : Nat
  propagate : Bool
  filters : List String
  handlers : List Handler
deriving DecidableEq

/-- The keyword arguments of `setup_logger` (lines 55-65). -/
structure SetupArgs where
  level : Nat
  logstash_host : Option String
  logstash_port : Nat
  enable_stdout : Bool
  enable_logstash : Bool
  environment : String
  project_name : Option String
  stdout_extra_fields : Option (List String)
deriving DecidableEq

/-- The defaults of `setup_logger`: `level=logging.INFO`, `logstash_host=None`,
`logstash_port=5959`, `enable_stdout=True`, `enable_logstash=True`,
`environment="prod"`, `project_name=None`, `stdout_extra_fields=None`. -/
def defaultArgs : SetupArgs :=
  ⟨INFO, Option.none, 5959, true, true, "prod", Option.none, Option.none⟩

/-- Python truthiness of an optional string: `None` and `""` are falsy. -/
def truthy : Option String → Bool
| Option.none => false
| some s => !(s == "")

/-- The console format string of line 84. -/
def consoleFmt : String :=
  "[%(asctime)s][%(name)s][%(levelname)s][%(environment)s] %(message)s"

/-- The console date format of line 85. -/
def consoleDatefmt : String := "%m/%d/%Y %H:%M:%S"

/-- Construction of a fresh logger by the body of `setup_logger`
(lines 70-110): set the level, disable propagation, attach the
`EnvironmentFilter`, attach the console handler when `enable_stdout`, and
attach the logstash handler when `enable_logstash` and a truthy host are
given — with the `SafeLogstashFormatter` only under a truthy
`project_name`. -/
def buildLogger (name : String) (a : SetupArgs) : Logger :=
  ⟨name, a.level, false, [a.environment],
    (if a.enable_stdout then
      [Handler.console a.level consoleFmt consoleDatefmt
        (a.stdout_extra_fields.getD ["raw_json"])]
     else []) ++
    (if a.enable_logstash && truthy a.logstash_host then
      [Handler.logstash (a.logstash_host.getD "") a.logstash_port a.level
        (if truthy a.project_name then
          some ⟨a.project_name.getD "", a.project_name.getD "", a.environment⟩
         else Option.none)]
     else [])⟩

/-- The module-level `_loggers` registry, modelled as an association list. -/
def Registry := List (String × Logger)

/-- Dict lookup in the registry (`name in _loggers` / `_loggers[name]`). -/
def lookup : List (String × Logger) → String → Option Logger
| [], _ => Option.none
| (k, v) :: rest, n => if k = n then some v else lookup rest n

/-- Embedding of `setup_logger` as a state transition over the registry (lines 66-113):
under the lock, return the cached handle if the name is registered —
ignoring the supplied configuration — otherwise build, register and return
a fresh handle. -/
def setup_logger (name : String) (a : SetupArgs) (σ : List (String × Logger)) :
    List (String × Logger) × Logger :=
  match lookup σ name with
  | some l => (σ, l)
  | Option.none =>
      let l := buildLogger name a
      ((name, l) :: σ, l)

/-- Embedding of `get_logger` (lines 116-120): return the cached handle, else
`setup_logger(name)` with all defaults. -/
def get_logger (name : String) (σ : List (String × Logger)) :
    List (String × Logger) × Logger :=
  match lookup σ name with
  | some l => (σ, l)
  | Option.none => setup_logger name defaultArgs σ

/-- An ephemeral log record, as far as the environment filter observes it. -/
structure Record where
  logger_name : String
  levelno : Nat
  msg : String
  environment : Option String
deriving DecidableEq

/-- Embedding of `EnvironmentFilter.filter` (lines 31-33): stamp the environment onto the
record and keep it (`return True`). -/
def environmentFilter (env : String) (r : Record) : Record × Bool :=
  (⟨r.logger_name, r.levelno, r.msg, some env⟩, true)

/-- Run every filter of a logger over a record, in order. -/
def applyFilters (fs : List String) (r : Record) : Record :=
  fs.foldl (fun acc f => (environmentFilter f acc).1) r

/-! ## Heap-level view of truncate_large_data (frame property) -/

/-- One heap cell of the Python object graph: containers hold addresses of
their members. -/
inductive Cell where
| dict : List (String × Nat) → Cell
| list : List Nat → Cell
| str : String → Cell
| int : Int → Cell
| bool : Bool → Cell
| none : Cell
deriving DecidableEq

/-- The heap: a cell per address, addresses being list indices. -/
def Store := List Cell

/-- Truncate each address of a member list in order, threading the store
through `f`, the one-element truncation. -/
def truncStoreMany (f : List Cell → Nat → Option (List Cell × Nat)) :
    List Cell → List Nat → Option (List Cell × List Nat)
| σ, [] => some (σ, [])
| σ, a :: rest =>
    (f σ a).bind fun p =>
      (truncStoreMany f p.1 rest).bind fun q => some (q.1, p.2 :: q.2)

/-- One dispatch step of the heap-level truncation, on the cell found at
the current address: containers recurse over their members (through
`recur`, the truncation at the remaining fuel) and allocate a fresh cell;
an oversized string allocates the fresh placeholder; every other object is
returned by reference, unchanged (`return obj`). -/
def truncCell (recur : List Cell → Nat → Option (List Cell × Nat))
    (σ : List Cell) (a m : Nat) : Cell → Option (List Cell × Nat)
| .dict kvs =>
    (truncStoreMany recur σ (kvs.map Prod.snd)).bind
      fun p => some (p.1 ++ [.dict (List.zip (kvs.map Prod.fst) p.2)], p.1.length)
| .list xs =>
    (truncStoreMany recur σ xs).bind
      fun p => some (p.1 ++ [.list p.2], p.1.length)
| .str s =>
    if m < s.length then some (σ ++ [.str (truncPlaceholder s.length)], σ.length)
    else some (σ, a)
| .int _ => some (σ, a)
| .bool _ => some (σ, a)
| .none => some (σ, a)

/-- Embedding of `truncate_large_data` at the heap level, with fuel for
termination on arbitrary (possibly cyclic) object graphs.  Returns
`Option.none` on a dangling address or when the fuel runs out. -/
def truncStore : Nat → List Cell → Nat → Nat → Option (List Cell × Nat)
| 0, _, _, _ => Option.none
| fuel + 1, σ, a, m =>
    (σ.get? a).bind (truncCell (fun σ0 a0 => truncStore fuel σ0 a0 m) σ a m)

/-! ## Concurrency model of the `with _lock:` critical section -/

/-- Program counter of one thread running `setup_logger` on the same (new)
name: not yet entered; holding `_lock` about to test `name in _loggers`;
holding `_lock` having constructed handle `h` (and attached its sinks),
about to insert; returned with result `h`. -/
inductive PC where
| start
| checking
| inserting (h : Nat)
| done (h : Nat)
deriving DecidableEq

/-- Is a thread inside the critical section (holding the lock)? -/
def PC.inCS : PC → Prop
| .checking => True
| .inserting _ => True
| _ => False

/-- Shared state for `n` threads racing through `setup_logger` on one new
name: who holds `_lock`, the registry entry for the name (`Option.none`
while absent), how many handles have been constructed with sinks attached,
and each thread's program counter.  Constructed handles are numbered
`0, 1, ...` in construction order so that distinct constructions are
distinguishable. -/
structure CState (n : Nat) where
  lock : Option (Fin n)
  cache : Option Nat
  constructs : Nat
  pcs : Fin n → PC

/-- The initial state: lock free, name unregistered, nothing constructed. -/
def initState (n : Nat) : CState n :=
  ⟨Option.none, Option.none, 0, fun _ => PC.start⟩

/-- Interleaving semantics of `setup_logger`'s body under `_lock`
(lines 66-113): a thread acquires the free lock (`with _lock:` entry); a
holder that finds the name cached returns it (lines 67-68, releasing the
lock); a holder that finds it absent constructs a fresh handle and attaches
its sinks (lines 70-110); the holder then inserts the handle and returns it
(lines 112-113, releasing the lock). -/
inductive Step {n : Nat} : CState n → CState n → Prop
| acquire (s : CState n) (t : Fin n) :
    s.lock = Option.none → s.pcs t = PC.start →
    Step s ⟨some t, s.cache, s.constructs, Function.update s.pcs t PC.checking⟩
| hit (s : CState n) (t : Fin n) (h : Nat) :
    s.lock = some t → s.pcs t = PC.checking → s.cache = some h →
    Step s ⟨Option.none, s.cache, s.constructs, Function.update s.pcs t (PC.done h)⟩
| miss (s : CState n) (t : Fin n) :
    s.lock = some t → s.pcs t = PC.checking → s.cache = Option.none →
    Step s ⟨some t, s.cache, s.constructs + 1,
      Function.update s.pcs t (PC.inserting s.constructs)⟩
| insert (s : CState n) (t : Fin n) (h : Nat) :
    s.lock = some t → s.pcs t = PC.inserting h →
    Step s ⟨Option.none, some h, s.constructs, Function.update s.pcs t (PC.done h)⟩

/-- States reachable from the initial state by interleaved steps. -/
def Reach (n : Nat) (s : CState n) : Prop :=
  Relation.ReflTransGen Step (initState n) s

/-- The inductive invariant of the race: only the lock holder is inside the
critical section; a thread about to insert has constructed handle 0, with
the cache still empty and exactly one construction performed; a cached
handle is handle 0 with exactly one construction; at most one construction
ever happens, and it is witnessed by the cache or by the inserting thread;
a finished thread returned handle 0 and left it cached. -/
def RaceInv {n : Nat} (s : CState n) : Prop :=
  (∀ t : Fin n, PC.inCS (s.pcs t) → s.lock = some t) ∧
  (∀ (t : Fin n) (h : Nat), s.pcs t = PC.inserting h →
      h = 0 ∧ s.constructs = 1 ∧ s.cache = Option.none) ∧
  (∀ h : Nat, s.cache = some h → h = 0 ∧ s.constructs = 1) ∧
  (s.constructs = 0 ∨ s.constructs = 1) ∧
  (s.constructs = 1 → s.cache = some 0 ∨ ∃ t : Fin n, s.pcs t = PC.inserting 0) ∧
  (∀ (t : Fin n) (h : Nat), s.pcs t = PC.done h → h = 0 ∧ s.cache = some 0)

/-! ## Remaining helper definitions for the claims -/

mutual

/-- Every string leaf of the value that is longer than `m` produces a
placeholder that itself fits within `m`.  Under this side condition
truncation is idempotent; without it the placeholder can be re-truncated. -/
def placeholdersFit : PyObj → Nat → Bool
| .dict kvs, m => placeholdersFitKVs kvs m
| .list xs, m => placeholdersFitList xs m
| .str s, m =>
    if m < s.length then decide ((truncPlaceholder s.length).length ≤ m) else true
| .int _, _ => true
| .bool _, _ => true
| .none, _ => true
| .obj _ _, _ => true

/-- Per-element conjunction of `placeholdersFit` over a list. -/
def placeholdersFitList : PyList → Nat → Bool
| .nil, _ => true
| .cons x rest, m => placeholdersFit x m && placeholdersFitList rest m

/-- Per-value conjunction of `placeholdersFit` over a dict. -/
def placeholdersFitKVs : PyKVs → Nat → Bool
| .nil, _ => true
| .cons _ v rest, m => placeholdersFit v m && placeholdersFitKVs rest m

end

mutual

/-- Replace every opaque (non-JSON-native) leaf of a value by the string
`_json_default` produces for it.  This is the value `json.dumps` actually
renders when it consults the `default=` callback. -/
def replaceObjs : PyObj → PyObj
| .dict kvs => .dict (replaceObjsKVs kvs)
| .list xs => .list (replaceObjsList xs)
| .str s => .str s
| .int i => .int i
| .bool b => .bool b
| .none => .none
| .obj t r => .str (json_default t r)

/-- Element-wise `replaceObjs` over a list. -/
def replaceObjsList : PyList → PyList
| .nil => .nil
| .cons x rest => .cons (replaceObjs x) (replaceObjsList rest)

/-- Value-wise `replaceObjs` over a dict. -/
def replaceObjsKVs : PyKVs → PyKVs
| .nil => .nil
| .cons k v rest => .cons k (replaceObjs v) (replaceObjsKVs rest)

end

mutual

/-- No opaque (non-JSON-native) leaf occurs in the value. -/
def objFree : PyObj → Bool
| .dict kvs => objFreeKVs kvs
| .list xs => objFreeList xs
| .str _ => true
| .int _ => true
| .bool _ => true
| .none => true
| .obj _ _ => false

/-- Element-wise conjunction of `objFree` over a list. -/
def objFreeList : PyList → Bool
| .nil => true
| .cons x rest => objFree x && objFreeList rest

/-- Value-wise conjunction of `objFree` over a dict. -/
def objFreeKVs : PyKVs → Bool
| .nil => true
| .cons _ v rest => objFree v && objFreeKVs rest

end

/-- Is a heap cell a container (dict or list)? -/
def Cell.isContainer : Cell → Bool
| .dict _ => true
| .list _ => true
| _ => false

/-- Intermediate state of the single-thread demonstration run: thread 0 has
acquired the lock and is about to check the cache. -/
def raceS1 : CState 1 := ⟨some 0, Option.none, 0, fun _ => PC.checking⟩

/-- Intermediate state: thread 0 missed the empty cache and constructed
handle 0 with its sinks. -/
def raceS2 : CState 1 := ⟨some 0, Option.none, 1, fun _ => PC.inserting 0⟩

/-- Final state: thread 0 inserted handle 0 and returned it. -/
def raceS3 : CState 1 := ⟨Option.none, some 0, 1, fun _ => PC.done 0⟩

/-! ## Theorems -/

/-- Auxiliary: truncation never changes the key list of a dict. -/
theorem kvKeys_truncKVs : ∀ (kvs : PyKVs) (m : Nat), kvKeys (truncKVs kvs m) = kvKeys kvs
| .nil, _ => rfl
| .cons k v rest, m => by simp [truncKVs, kvKeys, kvKeys_truncKVs rest m]

/-- Auxiliary: truncation never changes the length of a list. -/
theorem pyLen_truncList : ∀ (xs : PyList) (m : Nat), pyLen (truncList xs m) = pyLen xs
| .nil, _ => rfl
| .cons x rest, m => by simp [truncList, pyLen, pyLen_truncList rest m]

/-- Claim C1: calling `setup_logger` twice for the same (new) name with two
different configurations returns the same handle both times, configured per
the first call only; the second call is a cache hit that silently ignores
its configuration and leaves the registry unchanged. -/
theorem setup_logger_first_config_wins (n : String) (a1 a2 : SetupArgs)
    (σ : List (String × Logger)) (h : lookup σ n = Option.none) :
    (setup_logger n a1 σ).2 = buildLogger n a1 ∧
    (setup_logger n a2 (setup_logger n a1 σ).1).2 = (setup_logger n a1 σ).2 ∧
    (setup_logger n a2 (setup_logger n a1 σ).1).1 = (setup_logger n a1 σ).1 := by
  simp [setup_logger, h, lookup]

/-- Witness for C1: a concrete first call with the defaults followed by a
second call with a thoroughly different configuration. -/
theorem setup_logger_first_config_wins_witness :
    (setup_logger "svc" defaultArgs []).2 = buildLogger "svc" defaultArgs ∧
    (setup_logger "svc" ⟨10, some "host", 1234, false, true, "dev", some "proj", some []⟩
        (setup_logger "svc" defaultArgs []).1).2 = (setup_logger "svc" defaultArgs []).2 ∧
    (setup_logger "svc" ⟨10, some "host", 1234, false, true, "dev", some "proj", some []⟩
        (setup_logger "svc" defaultArgs []).1).1 = (setup_logger "svc" defaultArgs []).1 :=
  setup_logger_first_config_wins "svc" defaultArgs
    ⟨10, some "host", 1234, false, true, "dev", some "proj", some []⟩ [] rfl

/-- Counterexample for C4: a logger constructed with all defaults does not
stamp records with environment `"dev"`; the default is `"prod"`. -/
theorem default_environment_not_dev :
    (applyFilters (setup_logger "svc" defaultArgs []).2.filters
      ⟨"svc", INFO, "msg", Option.none⟩).environment ≠ some "dev" := by decide

/-- Amended C4: when `setup_logger` is called without an environment
argument the created logger carries the environment filter `"prod"`, so
every record it emits is stamped with environment `"prod"`. -/
theorem default_environment_prod (n : String) (σ : List (String × Logger))
    (r : Record) (h : lookup σ n = Option.none) :
    (setup_logger n defaultArgs σ).2.filters = ["prod"] ∧
    (applyFilters (setup_logger n defaultArgs σ).2.filters r).environment
      = some "prod" := by
  simp [setup_logger, h, buildLogger, defaultArgs, applyFilters, environmentFilter]

/-- Witness for the amended C4 at a concrete fresh name and record. -/
theorem default_environment_prod_witness :
    (applyFilters (setup_logger "svc" defaultArgs []).2.filters
      ⟨"svc", INFO, "msg", Option.none⟩).environment = some "prod" :=
  (default_environment_prod "svc" [] ⟨"svc", INFO, "msg", Option.none⟩ rfl).2

set_option maxRecDepth 100000 in
/-- Claim C5: `get_extra_from_json({"user": "a"*500, "id": 7}, 100)` is the
single-key mapping binding `"raw_json"` to the indented JSON text in which
the oversized value was truncated before encoding, with exact placeholder
text and field order. -/
theorem get_extra_scenario :
    get_extra_from_json
        (.cons "user" (.str (aString 500)) (.cons "id" (.int 7) .nil)) 100
      = [("raw_json",
          "\x7b\n  \"user\": \"<truncated: 500 chars>\",\n  \"id\": 7\n\x7d")] := by
  decide

/-- Claim C6: truncation preserves structure shape — a dict maps to a dict
with the same keys, a list to a list of the same length, an oversized string
leaf to the placeholder, and every other leaf to itself unchanged. -/
theorem truncate_preserves_shape (kvs : PyKVs) (xs : PyList) (s : String)
    (i : Int) (b : Bool) (t : String) (r : Option String) (m : Nat) :
    truncate_large_data (.dict kvs) m = .dict (truncKVs kvs m) ∧
    kvKeys (truncKVs kvs m) = kvKeys kvs ∧
    truncate_large_data (.list xs) m = .list (truncList xs m) ∧
    pyLen (truncList xs m) = pyLen xs ∧
    truncate_large_data (.str s) m
      = (if m < s.length then .str (truncPlaceholder s.length) else .str s) ∧
    truncate_large_data (.int i) m = .int i ∧
    truncate_large_data (.bool b) m = .bool b ∧
    truncate_large_data .none m = PyObj.none ∧
    truncate_large_data (.obj t r) m = .obj t r :=
  ⟨rfl, kvKeys_truncKVs kvs m, rfl, pyLen_truncList xs m, rfl, rfl, rfl, rfl, rfl⟩

/-- Claim C7: with aggregation enabled but no (or an empty) aggregation
host, construction attaches no logstash handler and — console enabled —
yields exactly the console handler; nothing is raised (the embedding is a
total function) and level/port are not validated (they are arbitrary). -/
theorem no_host_silently_degrades (n : String) (a : SetupArgs)
    (σ : List (String × Logger)) (hn : lookup σ n = Option.none)
    (hL : a.enable_logstash = true) (hh : truthy a.logstash_host = false) :
    (∀ hd ∈ (setup_logger n a σ).2.handlers, hd.isLogstash = false) ∧
    (a.enable_stdout = true →
      (setup_logger n a σ).2.handlers
        = [Handler.console a.level consoleFmt consoleDatefmt
            (a.stdout_extra_fields.getD ["raw_json"])]) := by
  cases hs : a.enable_stdout <;>
    simp [setup_logger, hn, buildLogger, hh, hs, Handler.isLogstash]

/-- Witness for C7: the default configuration has aggregation enabled and no
host; the fresh logger gets exactly the console handler. -/
theorem no_host_silently_degrades_witness :
    (setup_logger "svc" defaultArgs []).2.handlers
      = [Handler.console INFO consoleFmt consoleDatefmt ["raw_json"]] :=
  (no_host_silently_degrades "svc" defaultArgs [] rfl rfl rfl).2 rfl

/-- Claim C10: with an aggregation host but an absent or empty
`project_name`, the logstash handler is attached without any custom
formatter (`formatter = Option.none`), so neither the safe serializer nor
the embedded environment label of `SafeLogstashFormatter` applies to it. -/
theorem logstash_formatter_requires_project (n : String) (a : SetupArgs)
    (σ : List (String × Logger)) (hn : lookup σ n = Option.none)
    (hL : a.enable_logstash = true) (hh : truthy a.logstash_host = true)
    (hp : truthy a.project_name = false) :
    (setup_logger n a σ).2.handlers
      = (if a.enable_stdout then
          [Handler.console a.level consoleFmt consoleDatefmt
            (a.stdout_extra_fields.getD ["raw_json"])]
         else [])
        ++ [Handler.logstash (a.logstash_host.getD "") a.logstash_port a.level
            Option.none] := by
  simp [setup_logger, hn, buildLogger, hL, hh, hp]

/-- Witness for C10: host given, `project_name=None` — the logstash handler
carries no formatter. -/
theorem logstash_formatter_requires_project_witness :
    (setup_logger "svc"
        ⟨INFO, some "logstash.example", 5959, true, true, "prod",
         Option.none, Option.none⟩ []).2.handlers
      = [Handler.console INFO consoleFmt consoleDatefmt ["raw_json"],
         Handler.logstash "logstash.example" 5959 INFO Option.none] := by
  simpa using logstash_formatter_requires_project "svc"
    ⟨INFO, some "logstash.example", 5959, true, true, "prod",
     Option.none, Option.none⟩ [] rfl rfl rfl rfl

/-- Counterexample for C2: truncation is not idempotent for every max
length — at `L = 5` the six-character string `"aaaaaa"` becomes
`"<truncated: 6 chars>"` (20 characters), which a second pass truncates
again to `"<truncated: 20 chars>"`. -/
theorem truncate_not_idempotent :
    truncate_large_data (truncate_large_data (.str (aString 6)) 5) 5
      ≠ truncate_large_data (.str (aString 6)) 5 := by decide

mutual

/-- Auxiliary: idempotence of truncation under the `placeholdersFit` side
condition. -/
theorem truncate_idem : ∀ (x : PyObj) (m : Nat), placeholdersFit x m = true →
    truncate_large_data (truncate_large_data x m) m = truncate_large_data x m
| .dict kvs, m, h => by
    simp only [truncate_large_data]
    exact congrArg PyObj.dict
      (truncate_idemKVs kvs m (by simpa [placeholdersFit] using h))
| .list xs, m, h => by
    simp only [truncate_large_data]
    exact congrArg PyObj.list
      (truncate_idemList xs m (by simpa [placeholdersFit] using h))
| .str s, m, h => by
    by_cases hlen : m < s.length
    · have hfit : (truncPlaceholder s.length).length ≤ m := by
        simpa [placeholdersFit, hlen] using h
      simp [truncate_large_data, hlen, Nat.not_lt.mpr hfit]
    · simp [truncate_large_data, hlen]
| .int _, _, _ => rfl
| .bool _, _, _ => rfl
| .none, _, _ => rfl
| .obj _ _, _, _ => rfl

/-- Auxiliary: element-wise idempotence over lists. -/
theorem truncate_idemList : ∀ (xs : PyList) (m : Nat),
    placeholdersFitList xs m = true →
    truncList (truncList xs m) m = truncList xs m
| .nil, _, _ => rfl
| .cons x rest, m, h => by
    rw [placeholdersFitList, Bool.and_eq_true] at h
    simp only [truncList]
    rw [truncate_idem x m h.1, truncate_idemList rest m h.2]

/-- Auxiliary: value-wise idempotence over dicts. -/
theorem truncate_idemKVs : ∀ (kvs : PyKVs) (m : Nat),
    placeholdersFitKVs kvs m = true →
    truncKVs (truncKVs kvs m) m = truncKVs kvs m
| .nil, _, _ => rfl
| .cons k v rest, m, h => by
    rw [placeholdersFitKVs, Bool.and_eq_true] at h
    simp only [truncKVs]
    rw [truncate_idem v m h.1, truncate_idemKVs rest m h.2]

end

/-- Amended C2: truncation is idempotent for every acyclic nested structure
`x` and max length `L` such that every placeholder it introduces itself fits
within `L` (true in particular for the default `L = 100`); it is not
idempotent unconditionally, because for small `L` the placeholder text can
exceed `L` and be truncated again by the second pass. -/
theorem truncate_idempotent_when_placeholders_fit (x : PyObj) (m : Nat)
    (h : placeholdersFit x m = true) :
    truncate_large_data (truncate_large_data x m) m = truncate_large_data x m :=
  truncate_idem x m h

/-- Witness for the amended C2: a 101-character value under the default max
length 100. -/
theorem truncate_idempotent_when_placeholders_fit_witness :
    truncate_large_data
        (truncate_large_data (.dict (.cons "user" (.str (aString 101)) .nil)) 100) 100
      = truncate_large_data (.dict (.cons "user" (.str (aString 101)) .nil)) 100 :=
  truncate_idempotent_when_placeholders_fit
    (.dict (.cons "user" (.str (aString 101)) .nil)) 100 (by decide)

mutual

/-- Auxiliary: serializing a value equals serializing the value in which
every opaque leaf has been replaced by its `_json_default` string. -/
theorem dumps_replaceObjs : ∀ (ea : Bool) (v : PyObj),
    json_dumps ea (replaceObjs v) = json_dumps ea v
| ea, .dict kvs => by
    simp only [replaceObjs, json_dumps]
    rw [dumpsKVs_replaceObjs ea kvs]
| ea, .list xs => by
    simp only [replaceObjs, json_dumps]
    rw [dumpsList_replaceObjs ea xs]
| _, .str _ => rfl
| _, .int _ => rfl
| _, .bool _ => rfl
| _, .none => rfl
| _, .obj _ _ => rfl

/-- Auxiliary: the same over list bodies. -/
theorem dumpsList_replaceObjs : ∀ (ea : Bool) (xs : PyList),
    dumpsList ea (replaceObjsList xs) = dumpsList ea xs
| _, .nil => rfl
| ea, .cons x .nil => by
    simp only [replaceObjsList, dumpsList]
    rw [dumps_replaceObjs ea x]
| ea, .cons x (.cons y rest) => by
    have h := dumpsList_replaceObjs ea (.cons y rest)
    simp only [replaceObjsList] at h ⊢
    simp only [dumpsList]
    rw [dumps_replaceObjs ea x, h]

/-- Auxiliary: the same over dict bodies. -/
theorem dumpsKVs_replaceObjs : ∀ (ea : Bool) (kvs : PyKVs),
    dumpsKVs ea (replaceObjsKVs kvs) = dumpsKVs ea kvs
| _, .nil => rfl
| ea, .cons k v .nil => by
    simp only [replaceObjsKVs, dumpsKVs]
    rw [dumps_replaceObjs ea v]
| ea, .cons k v (.cons k2 v2 rest) => by
    have h := dumpsKVs_replaceObjs ea (.cons k2 v2 rest)
    simp only [replaceObjsKVs] at h ⊢
    simp only [dumpsKVs]
    rw [dumps_replaceObjs ea v, h]

end

mutual

/-- Auxiliary: after replacement no opaque leaf remains. -/
theorem objFree_replaceObjs : ∀ (v : PyObj), objFree (replaceObjs v) = true
| .dict kvs => by
    simp only [replaceObjs, objFree]
    exact objFreeKVs_replaceObjs kvs
| .list xs => by
    simp only [replaceObjs, objFree]
    exact objFreeList_replaceObjs xs
| .str _ => rfl
| .int _ => rfl
| .bool _ => rfl
| .none => rfl
| .obj _ _ => rfl

/-- Auxiliary: the same over list bodies. -/
theorem objFreeList_replaceObjs : ∀ (xs : PyList),
    objFreeList (replaceObjsList xs) = true
| .nil => rfl
| .cons x rest => by
    simp only [replaceObjsList, objFreeList, Bool.and_eq_true]
    exact ⟨objFree_replaceObjs x, objFreeList_replaceObjs rest⟩

/-- Auxiliary: the same over dict bodies. -/
theorem objFreeKVs_replaceObjs : ∀ (kvs : PyKVs),
    objFreeKVs (replaceObjsKVs kvs) = true
| .nil => rfl
| .cons _ v rest => by
    simp only [replaceObjsKVs, objFreeKVs, Bool.and_eq_true]
    exact ⟨objFree_replaceObjs v, objFreeKVs_replaceObjs rest⟩

end

/-- Claim C3: aggregation-sink serialization is total — the serializer is a
total function; every value serializes exactly as the value in which each
non-JSON-native leaf has been replaced by a string (so no leaf can make it
raise), that replacement leaves no non-native leaf behind, and the
replacement string is `str(obj)` when the conversion succeeds and the
`<non-serializable: TypeName>` placeholder when it fails. -/
theorem serialize_total_with_fallback (ea : Bool) (v : PyObj) (msg : PyKVs)
    (t s : String) :
    json_dumps ea (replaceObjs v) = json_dumps ea v ∧
    objFree (replaceObjs v) = true ∧
    json_default t (some s) = s ∧
    json_default t Option.none = "<non-serializable: " ++ t ++ ">" ∧
    SafeLogstashFormatter_serialize ea msg
      = "\x7b" ++ dumpsKVs ea (replaceObjsKVs msg) ++ "\x7d" := by
  refine ⟨dumps_replaceObjs ea v, objFree_replaceObjs v, rfl, rfl, ?_⟩
  rw [dumpsKVs_replaceObjs ea msg]
  rfl


/-- Auxiliary: if the element-wise truncation only ever appends to the
store, then so does the member-list walk. -/
theorem truncStoreMany_extends (f : List Cell → Nat → Option (List Cell × Nat))
    (hf : ∀ σ a σ' a', f σ a = some (σ', a') → ∃ ext, σ' = σ ++ ext) :
    ∀ (as : List Nat) (σ σ' : List Cell) (as' : List Nat),
      truncStoreMany f σ as = some (σ', as') → ∃ ext, σ' = σ ++ ext
| [], σ, σ', as', h => by
    rw [truncStoreMany] at h
    simp only [Option.some.injEq, Prod.mk.injEq] at h
    exact ⟨[], by simp [← h.1]⟩
| a :: rest, σ, σ', as', h => by
    rw [truncStoreMany] at h
    cases h1 : f σ a with
    | none => rw [h1] at h; exact absurd h (by simp)
    | some p =>
      obtain ⟨σ1, a1⟩ := p
      rw [h1, Option.some_bind] at h
      cases h2 : truncStoreMany f σ1 rest with
      | none => rw [h2] at h; exact absurd h (by simp)
      | some q =>
        obtain ⟨σ2, rest2⟩ := q
        rw [h2, Option.some_bind] at h
        simp only [Option.some.injEq, Prod.mk.injEq] at h
        obtain ⟨e1, he1⟩ := hf σ a σ1 a1 h1
        obtain ⟨e2, he2⟩ := truncStoreMany_extends f hf rest σ1 σ2 rest2 h2
        exact ⟨e1 ++ e2, by simp [← h.1, he2, he1]⟩

/-- Auxiliary: one truncation step only appends to the store, and a
container input receives a freshly allocated result cell. -/
theorem truncStore_frame : ∀ (fuel : Nat) (σ : List Cell) (a m : Nat)
    (σ' : List Cell) (a' : Nat), truncStore fuel σ a m = some (σ', a') →
    (∃ ext, σ' = σ ++ ext) ∧
    (∀ c, σ.get? a = some c → c.isContainer = true → σ.length ≤ a') := by
  intro fuel
  induction fuel with
  | zero => intro σ a m σ' a' h; rw [truncStore] at h; exact absurd h (by simp)
  | succ fuel ih =>
    intro σ a m σ' a' h
    rw [truncStore] at h
    have hf : ∀ σ0 a0 σ0' a0',
        (fun σ1 a1 => truncStore fuel σ1 a1 m) σ0 a0 = some (σ0', a0') →
        ∃ ext, σ0' = σ0 ++ ext := by
      intro σ0 a0 σ0' a0' h0
      exact (ih σ0 a0 m σ0' a0' h0).1
    cases hg : σ.get? a with
    | none => rw [hg, Option.none_bind] at h; exact absurd h (by simp)
    | some c =>
      rw [hg, Option.some_bind] at h
      cases c with
      | dict kvs =>
        rw [truncCell] at h
        cases hm : truncStoreMany (fun σ1 a1 => truncStore fuel σ1 a1 m) σ
            (kvs.map Prod.snd) with
        | none => rw [hm, Option.none_bind] at h; exact absurd h (by simp)
        | some p =>
          obtain ⟨σ1, addrs⟩ := p
          rw [hm, Option.some_bind] at h
          simp only [Option.some.injEq, Prod.mk.injEq] at h
          obtain ⟨e1, he1⟩ := truncStoreMany_extends _ hf _ _ _ _ hm
          constructor
          · exact ⟨e1 ++ [Cell.dict (List.zip (kvs.map Prod.fst) addrs)],
              by simp [← h.1, he1]⟩
          · intro c0 hc0 _
            rw [← h.2, he1]
            simp
      | list xs =>
        rw [truncCell] at h
        cases hm : truncStoreMany (fun σ1 a1 => truncStore fuel σ1 a1 m) σ xs with
        | none => rw [hm, Option.none_bind] at h; exact absurd h (by simp)
        | some p =>
          obtain ⟨σ1, addrs⟩ := p
          rw [hm, Option.some_bind] at h
          simp only [Option.some.injEq, Prod.mk.injEq] at h
          obtain ⟨e1, he1⟩ := truncStoreMany_extends _ hf _ _ _ _ hm
          constructor
          · exact ⟨e1 ++ [Cell.list addrs], by simp [← h.1, he1]⟩
          · intro c0 hc0 _
            rw [← h.2, he1]
            simp
      | str s =>
        rw [truncCell] at h
        by_cases hlen : m < s.length
        · rw [if_pos hlen] at h
          simp only [Option.some.injEq, Prod.mk.injEq] at h
          constructor
          · exact ⟨[Cell.str (truncPlaceholder s.length)], h.1.symm⟩
          · intro c0 hc0 hcont
            cases Option.some.inj hc0
            simp [Cell.isContainer] at hcont
        · rw [if_neg hlen] at h
          simp only [Option.some.injEq, Prod.mk.injEq] at h
          refine ⟨⟨[], by simp [← h.1]⟩, ?_⟩
          intro c0 hc0 hcont
          cases Option.some.inj hc0
          simp [Cell.isContainer] at hcont
      | int i =>
        rw [truncCell] at h
        simp only [Option.some.injEq, Prod.mk.injEq] at h
        refine ⟨⟨[], by simp [← h.1]⟩, ?_⟩
        intro c0 hc0 hcont
        cases Option.some.inj hc0
        simp [Cell.isContainer] at hcont
      | bool b =>
        rw [truncCell] at h
        simp only [Option.some.injEq, Prod.mk.injEq] at h
        refine ⟨⟨[], by simp [← h.1]⟩, ?_⟩
        intro c0 hc0 hcont
        cases Option.some.inj hc0
        simp [Cell.isContainer] at hcont
      | none =>
        rw [truncCell] at h
        simp only [Option.some.injEq, Prod.mk.injEq] at h
        refine ⟨⟨[], by simp [← h.1]⟩, ?_⟩
        intro c0 hc0 hcont
        cases Option.some.inj hc0
        simp [Cell.isContainer] at hcont

/-- Claim C9: `truncate_large_data` never mutates its argument.  At the heap
level a successful run only appends freshly allocated cells to the store —
every pre-existing cell of the input graph is unchanged (the new store
extends the old one) — and for a container input the returned value is a
freshly allocated cell (its address lies beyond the whole input store).
Determinism over equal inputs holds definitionally: the embedding is a pure
function. -/
theorem truncate_no_mutation (fuel : Nat) (σ : List Cell) (a m : Nat)
    (σ' : List Cell) (a' : Nat) (h : truncStore fuel σ a m = some (σ', a')) :
    (∃ ext, σ' = σ ++ ext) ∧
    (∀ c, σ.get? a = some c → c.isContainer = true → σ.length ≤ a') :=
  truncStore_frame fuel σ a m σ' a' h

/-- Witness for C9: a two-cell heap holding `{"k": "aaaaaa"}` truncated at
max length 5; the input cells survive unchanged and the result dict is
fresh. -/
theorem truncate_no_mutation_witness :
    (∃ ext, [Cell.dict [("k", 1)], Cell.str (aString 6),
             Cell.str "<truncated: 6 chars>", Cell.dict [("k", 2)]]
        = [Cell.dict [("k", 1)], Cell.str (aString 6)] ++ ext) ∧
    (∀ c, [Cell.dict [("k", 1)], Cell.str (aString 6)].get? 0 = some c →
      c.isContainer = true →
      [Cell.dict [("k", 1)], Cell.str (aString 6)].length ≤ 3) :=
  truncate_no_mutation 3 [Cell.dict [("k", 1)], Cell.str (aString 6)] 0 5
    [Cell.dict [("k", 1)], Cell.str (aString 6),
     Cell.str "<truncated: 6 chars>", Cell.dict [("k", 2)]] 3 (by decide)

/-- Auxiliary: the invariant holds in the initial state. -/
theorem raceInv_init (n : Nat) : RaceInv (initState n) := by
  unfold RaceInv initState
  refine ⟨?_, ?_, ?_, Or.inl rfl, ?_, ?_⟩
  · intro t ht; simp [PC.inCS] at ht
  · intro t h ht; simp at ht
  · intro h hc; simp at hc
  · intro hc; simp at hc
  · intro t h ht; simp at ht

/-- Auxiliary: every interleaving step preserves the invariant. -/
theorem raceInv_step {n : Nat} {s s' : CState n} (inv : RaceInv s)
    (st : Step s s') : RaceInv s' := by
  obtain ⟨I1, I2, I3, I4, I5, I6⟩ := inv
  cases st with
  | acquire t hl hpc =>
    unfold RaceInv
    dsimp only
    refine ⟨?_, ?_, I3, I4, ?_, ?_⟩
    · intro u hu
      rcases eq_or_ne u t with rfl | hne
      · rfl
      · rw [Function.update_noteq hne] at hu
        have h1 := I1 u hu
        rw [hl] at h1
        exact Option.noConfusion h1
    · intro u h hu
      rcases eq_or_ne u t with rfl | hne
      · rw [Function.update_same] at hu; exact PC.noConfusion hu
      · rw [Function.update_noteq hne] at hu
        exact I2 u h hu
    · intro hcon
      rcases I5 hcon with hcc | ⟨u, hu⟩
      · exact Or.inl hcc
      · have h1 := I1 u (by rw [hu]; trivial)
        rw [hl] at h1
        exact Option.noConfusion h1
    · intro u h hu
      rcases eq_or_ne u t with rfl | hne
      · rw [Function.update_same] at hu; exact PC.noConfusion hu
      · rw [Function.update_noteq hne] at hu
        exact I6 u h hu
  | hit t h hl hpc hc =>
    unfold RaceInv
    dsimp only
    refine ⟨?_, ?_, I3, I4, ?_, ?_⟩
    · intro u hu
      rcases eq_or_ne u t with rfl | hne
      · rw [Function.update_same] at hu; simp [PC.inCS] at hu
      · rw [Function.update_noteq hne] at hu
        have h1 := I1 u hu
        rw [hl] at h1
        exact absurd (Option.some.inj h1).symm hne
    · intro u h' hu
      rcases eq_or_ne u t with rfl | hne
      · rw [Function.update_same] at hu; exact PC.noConfusion hu
      · rw [Function.update_noteq hne] at hu
        have h2 := (I2 u h' hu).2.2
        rw [hc] at h2
        exact Option.noConfusion h2
    · intro _
      exact Or.inl (by rw [hc, (I3 h hc).1])
    · intro u h' hu
      rcases eq_or_ne u t with rfl | hne
      · rw [Function.update_same] at hu
        injection hu with hh
        exact ⟨by rw [← hh]; exact (I3 h hc).1, by rw [hc, (I3 h hc).1]⟩
      · rw [Function.update_noteq hne] at hu
        exact I6 u h' hu
  | miss t hl hpc hc =>
    unfold RaceInv
    dsimp only
    have hzero : s.constructs = 0 := by
      rcases I4 with h0 | h1
      · exact h0
      · rcases I5 h1 with hcc | ⟨u, hu⟩
        · rw [hc] at hcc; exact Option.noConfusion hcc
        · have h1' := I1 u (by rw [hu]; trivial)
          rw [hl] at h1'
          have heq : u = t := (Option.some.inj h1').symm
          rw [heq, hpc] at hu
          exact PC.noConfusion hu
    refine ⟨?_, ?_, ?_, Or.inr (by rw [hzero]), ?_, ?_⟩
    · intro u hu
      rcases eq_or_ne u t with rfl | hne
      · rfl
      · rw [Function.update_noteq hne] at hu
        have h1 := I1 u hu
        rw [hl] at h1
        exact absurd (Option.some.inj h1).symm hne
    · intro u h' hu
      rcases eq_or_ne u t with rfl | hne
      · rw [Function.update_same] at hu
        injection hu with hh
        exact ⟨by rw [← hh]; exact hzero, by rw [hzero], hc⟩
      · rw [Function.update_noteq hne] at hu
        have h1 := I1 u (by rw [hu]; trivial)
        rw [hl] at h1
        exact absurd (Option.some.inj h1).symm hne
    · intro h' hc'
      rw [hc] at hc'
      exact Option.noConfusion hc'
    · intro _
      exact Or.inr ⟨t, by rw [Function.update_same, hzero]⟩
    · intro u h' hu
      rcases eq_or_ne u t with rfl | hne
      · rw [Function.update_same] at hu; exact PC.noConfusion hu
      · rw [Function.update_noteq hne] at hu
        have h6 := (I6 u h' hu).2
        rw [hc] at h6
        exact Option.noConfusion h6
  | insert t h hl hpc =>
    unfold RaceInv
    dsimp only
    obtain ⟨hh0, hc1, hcn⟩ := I2 t h hpc
    refine ⟨?_, ?_, ?_, I4, ?_, ?_⟩
    · intro u hu
      rcases eq_or_ne u t with rfl | hne
      · rw [Function.update_same] at hu; simp [PC.inCS] at hu
      · rw [Function.update_noteq hne] at hu
        have h1 := I1 u hu
        rw [hl] at h1
        exact absurd (Option.some.inj h1).symm hne
    · intro u h' hu
      rcases eq_or_ne u t with rfl | hne
      · rw [Function.update_same] at hu; exact PC.noConfusion hu
      · rw [Function.update_noteq hne] at hu
        have h1 := I1 u (by rw [hu]; trivial)
        rw [hl] at h1
        exact absurd (Option.some.inj h1).symm hne
    · intro h' hc'
      injection hc' with hh'
      exact ⟨by rw [← hh']; exact hh0, hc1⟩
    · intro _
      exact Or.inl (by rw [hh0])
    · intro u h' hu
      rcases eq_or_ne u t with rfl | hne
      · rw [Function.update_same] at hu
        injection hu with hh'
        exact ⟨by rw [← hh']; exact hh0, by rw [hh0]⟩
      · rw [Function.update_noteq hne] at hu
        have h6 := (I6 u h' hu).2
        rw [hcn] at h6
        exact Option.noConfusion h6

/-- Auxiliary: every reachable state satisfies the invariant. -/
theorem raceInv_reach {n : Nat} {s : CState n} (h : Reach n s) : RaceInv s := by
  have h' : Relation.ReflTransGen Step (initState n) s := h
  clear h
  induction h' with
  | refl => exact raceInv_init n
  | tail _ st ih => exact raceInv_step ih st

/-- Claim C8: the `with _lock:` body of `setup_logger` is a mutually
exclusive critical section — in every reachable interleaving at most one
thread is between lock acquisition and release — and when all of the `n ≥ 1`
racing threads have returned, exactly one handle was constructed (sinks
attached exactly once), it is the one registered under the name, and every
caller received a reference to that same handle. -/
theorem setup_logger_race_single_handle {n : Nat} (s : CState n)
    (hr : Reach n s) :
    (∀ t u : Fin n, PC.inCS (s.pcs t) → PC.inCS (s.pcs u) → t = u) ∧
    ((∀ t : Fin n, ∃ h, s.pcs t = PC.done h) → 0 < n →
      s.constructs = 1 ∧ s.cache = some 0 ∧ ∀ t : Fin n, s.pcs t = PC.done 0) := by
  obtain ⟨I1, I2, I3, I4, I5, I6⟩ := raceInv_reach hr
  constructor
  · intro t u ht hu
    have h1 := I1 t ht
    have h2 := I1 u hu
    rw [h1] at h2
    exact Option.some.inj h2
  · intro hdone hn
    obtain ⟨h0, hh0⟩ := hdone ⟨0, hn⟩
    obtain ⟨hz, hcache⟩ := I6 ⟨0, hn⟩ h0 hh0
    refine ⟨(I3 0 hcache).2, hcache, ?_⟩
    intro t
    obtain ⟨ht, hht⟩ := hdone t
    obtain ⟨hz2, _⟩ := I6 t ht hht
    rw [hz2] at hht
    exact hht

/-- Auxiliary: every function on the one-element thread set is constant. -/
theorem finOneFun_eq (f : Fin 1 → PC) (v : PC) (hv : f 0 = v) :
    f = fun _ => v := by
  funext u
  rcases u with ⟨uv, hu⟩
  have huz : uv = 0 := by omega
  subst huz
  exact hv

/-- Auxiliary: the single-thread demonstration run — acquire, miss
(construct handle 0 and attach its sinks), insert, return — reaches its
final state. -/
theorem reach_raceS3 : Reach 1 raceS3 := by
  have st1 : Step (initState 1) raceS1 := by
    have h := Step.acquire (initState 1) 0 rfl rfl
    have he : Function.update (initState 1).pcs 0 PC.checking = raceS1.pcs := by
      apply finOneFun_eq
      rw [Function.update_same]
    have : raceS1 = ⟨some 0, (initState 1).cache, (initState 1).constructs,
        Function.update (initState 1).pcs 0 PC.checking⟩ := by
      rw [he]
      rfl
    rw [this]
    exact h
  have st2 : Step raceS1 raceS2 := by
    have h := Step.miss raceS1 0 rfl rfl rfl
    have he : Function.update raceS1.pcs 0 (PC.inserting raceS1.constructs)
        = raceS2.pcs := by
      apply finOneFun_eq
      rw [Function.update_same]
      rfl
    have : raceS2 = ⟨some 0, raceS1.cache, raceS1.constructs + 1,
        Function.update raceS1.pcs 0 (PC.inserting raceS1.constructs)⟩ := by
      rw [he]
      rfl
    rw [this]
    exact h
  have st3 : Step raceS2 raceS3 := by
    have h := Step.insert raceS2 0 0 rfl rfl
    have he : Function.update raceS2.pcs 0 (PC.done 0) = raceS3.pcs := by
      apply finOneFun_eq
      rw [Function.update_same]
    have : raceS3 = ⟨Option.none, some 0, raceS2.constructs,
        Function.update raceS2.pcs 0 (PC.done 0)⟩ := by
      rw [he]
      rfl
    rw [this]
    exact h
  exact Relation.ReflTransGen.head st1
    (Relation.ReflTransGen.head st2 (Relation.ReflTransGen.single st3))

/-- Witness for C8: in the demonstration run the single racing thread ends
with exactly one constructed handle, registered and returned. -/
theorem setup_logger_race_single_handle_witness :
    raceS3.constructs = 1 ∧ raceS3.cache = some 0 ∧
    ∀ t : Fin 1, raceS3.pcs t = PC.done 0 :=
  (setup_logger_race_single_handle raceS3 reach_raceS3).2
    (fun _ => ⟨0, rfl⟩) Nat.one_pos
